import Mathlib

/-!
Verification of `bin/sam_to_confidence.py` (taxtriage).

The script is a three-stage pipeline: `load_depth_file` reads a
whitespace-delimited depth table into nested dictionaries,
`process_bam_file` aggregates mapped alignment records into per-reference
counters, and `output_statistics` derives and formats per-reference
statistics.  The embedding below models Python dictionaries as insertion-
ordered association lists, Python `int` as `ℤ`, Python `float` arithmetic
as exact `ℚ` arithmetic (every numeric value the verified statements
evaluate is exactly representable), and Python's runtime exceptions
(`KeyError`, `IndexError`, `ValueError`, `ZeroDivisionError`) as an
explicit `Except` error monad.
-/

set_option autoImplicit false

deriving instance DecidableEq for Except

namespace SamToConfidence

/-- Runtime exceptions the script can raise: dictionary lookup of a missing
key, sequence index out of range, `int()` on a non-numeric string, and
division by zero. -/
inductive PyErr where
  | keyError
  | indexError
  | valueError
  | zeroDivisionError
  deriving DecidableEq, Repr

/-- A Python dictionary, modelled as an insertion-ordered association list.
Keys are unique in every dictionary the script builds (assignment updates
the first matching entry in place and otherwise appends). -/
abbrev Dict (α β : Type) := List (α × β)

/-- Dictionary lookup `d[k]` as an `Option`: the value of the first entry
with key `k`. -/
def dGet? {α β : Type} [DecidableEq α] : Dict α β → α → Option β
  | [], _ => none
  | (k', v) :: rest, k => if k' = k then some v else dGet? rest k

/-- Python membership test `k in d`. -/
def dMem {α β : Type} [DecidableEq α] (d : Dict α β) (k : α) : Bool :=
  (dGet? d k).isSome

/-- Python assignment `d[k] = v`: update the first entry with key `k` in
place, or append a new entry. -/
def dSet {α β : Type} [DecidableEq α] : Dict α β → α → β → Dict α β
  | [], k, v => [(k, v)]
  | (k', v') :: rest, k, v =>
    if k' = k then (k, v) :: rest else (k', v') :: dSet rest k v

/-- Sum of the integer values of a dictionary, `sum(d.values())`. -/
def sumVals {α : Type} (d : Dict α ℤ) : ℤ :=
  (d.map Prod.snd).sum

/-- ASCII decimal digit test. -/
def isDigitCh (c : Char) : Bool :=
  '0' ≤ c && c ≤ '9'

/-- Numeric value of a list of ASCII digits, most significant first. -/
def digitsVal : List Char → ℕ → ℕ
  | [], acc => acc
  | c :: rest, acc => digitsVal rest (acc * 10 + (c.toNat - '0'.toNat))

/-- Python `int(s)` on a whitespace-free token: an optional sign followed
by at least one ASCII digit.  (Python's underscore separators and
non-ASCII digits are not modelled; no depth file the claims exercise uses
them.)  Returns `none` where Python raises `ValueError`. -/
def pyInt? (s : String) : Option ℤ :=
  match s.toList with
  | [] => none
  | '+' :: rest =>
    if rest ≠ [] && rest.all isDigitCh then some (digitsVal rest 0 : ℤ) else none
  | '-' :: rest =>
    if rest ≠ [] && rest.all isDigitCh then some (-(digitsVal rest 0 : ℤ)) else none
  | l =>
    if l.all isDigitCh then some (digitsVal l 0 : ℤ) else none

/-- The loader state: the `depth` table (reference → position → depth) and
the per-reference recorded-position count `total_positions`. -/
abbrev DepthSt := Dict String (Dict ℤ ℤ) × Dict String ℤ

/-- One iteration of the loader loop of `load_depth_file` on an already
whitespace-split line `cols`:
`ref, pos, dp = cols[0], int(cols[1]), int(cols[2])`, initialise the two
per-reference entries if `ref` is new, then `depth[ref][pos] = dp` and
`total_positions[ref] += 1`.  Index errors and `int()` failures surface in
Python's left-to-right evaluation order; extra columns beyond the third
are ignored. -/
def loadLine (st : DepthSt) (cols : List String) : Except PyErr DepthSt :=
  match cols.get? 0 with
  | none => .error .indexError
  | some ref =>
    match cols.get? 1 with
    | none => .error .indexError
    | some s1 =>
      match pyInt? s1 with
      | none => .error .valueError
      | some pos =>
        match cols.get? 2 with
        | none => .error .indexError
        | some s2 =>
          match pyInt? s2 with
          | none => .error .valueError
          | some dp =>
            let depth := st.1
            let total_positions := st.2
            let (depth, total_positions) :=
              if dMem depth ref then (depth, total_positions)
              else (dSet depth ref [], dSet total_positions ref 0)
            match dGet? depth ref, dGet? total_positions ref with
            | some dref, some n =>
              .ok (dSet depth ref (dSet dref pos dp), dSet total_positions ref (n + 1))
            | _, _ => .error .keyError

/-- `load_depth_file`: fold the loader loop over the (already split) lines
of the depth file, starting from two empty dictionaries. -/
def load_depth_file (lines : List (List String)) : Except PyErr DepthSt :=
  lines.foldlM loadLine (([], []) : DepthSt)

/-- One alignment record as consumed by `process_bam_file`: the mapped
flag, the reference name, and the 0-based half-open span
`[reference_start, reference_end)` (the fields `pysam` exposes and the
script reads). -/
structure BamRead where
  is_unmapped : Bool
  reference_name : String
  reference_start : ℤ
  reference_end : ℤ
  deriving DecidableEq, Repr

/-- The accumulator dictionaries of `process_bam_file`, together with the
reference-length dictionary `ilen` filled in from the header after the
read loop, and the global `total_reads_aligned` counter. -/
structure BamSt where
  coverage : Dict String ℤ
  count : Dict String ℤ
  sumsq : Dict String ℤ
  ireads : Dict String ℤ
  countreads : Dict String ℤ
  ilen : Dict String ℤ
  total_reads_aligned : ℤ
  deriving DecidableEq, Repr

/-- The empty accumulator state at the top of `process_bam_file`. -/
def initBamSt : BamSt :=
  { coverage := [], count := [], sumsq := [], ireads := [], countreads := [],
    ilen := [], total_reads_aligned := 0 }

/-- Python `range(s, e)` over integers. -/
def posRange (s e : ℤ) : List ℤ :=
  (List.range (e - s).toNat).map (fun i => s + i)

/-- The body of the per-position loop of `process_bam_file`:
`coverage[ref] = coverage.get(ref, 0) + 1`, likewise for `count`, and if
`ref in depth and pos in depth[ref]` then
`sumsq[ref] = sumsq.get(ref, 0) + dp ** 2`. -/
def processPos (depth : Dict String (Dict ℤ ℤ)) (ref : String) (st : BamSt) (pos : ℤ) : BamSt :=
  let st :=
    { st with coverage := dSet st.coverage ref ((dGet? st.coverage ref).getD 0 + 1),
              count := dSet st.count ref ((dGet? st.count ref).getD 0 + 1) }
  match dGet? depth ref with
  | none => st
  | some dref =>
    match dGet? dref pos with
    | none => st
    | some dp =>
      { st with sumsq := dSet st.sumsq ref ((dGet? st.sumsq ref).getD 0 + dp ^ 2) }

/-- The body of the read loop of `process_bam_file`: skip unmapped
records; otherwise initialise the four per-reference counters on first
sight of the reference, increment `ireads[ref]` and
`total_reads_aligned`, and run the per-position loop over
`range(reference_start, reference_end)`. -/
def processRead (depth : Dict String (Dict ℤ ℤ)) (st : BamSt) (r : BamRead) :
    Except PyErr BamSt :=
  if r.is_unmapped then .ok st
  else
    let ref := r.reference_name
    let st :=
      if dMem st.coverage ref then st
      else
        { st with coverage := dSet st.coverage ref 0, count := dSet st.count ref 0,
                  ireads := dSet st.ireads ref 0, countreads := dSet st.countreads ref 0 }
    match dGet? st.ireads ref with
    | none => .error .keyError
    | some n =>
      let st :=
        { st with ireads := dSet st.ireads ref (n + 1),
                  total_reads_aligned := st.total_reads_aligned + 1 }
      .ok ((posRange r.reference_start r.reference_end).foldl (processPos depth ref) st)

/-- The header loop of `process_bam_file`:
`ilen[ref] = f.lengths[f.references.index(ref)]` for every reference of
the header, where `.index` resolves to the first occurrence of the
name. -/
def buildIlen (header : List (String × ℤ)) : Dict String ℤ :=
  header.foldl
    (fun il p =>
      match dGet? header p.1 with
      | some len => dSet il p.1 len
      | none => il)
    []

/-- `process_bam_file`: fold the read loop over the records of the BAM
file, then fill `ilen` from the header.  `header` pairs each reference
name of the BAM header with its length (`f.references` zipped with
`f.lengths`); `total_positions` is accepted and ignored exactly as in the
source. -/
def process_bam_file (depth : Dict String (Dict ℤ ℤ)) (total_positions : Dict String ℤ)
    (header : List (String × ℤ)) (reads : List BamRead) : Except PyErr BamSt :=
  match reads.foldlM (processRead depth) initBamSt with
  | .error e => .error e
  | .ok st => .ok { st with ilen := buildIlen header }

/-- Round-half-even of a rational to an integer, the rounding Python's
fixed-point float formatting performs on the (exact) value being
printed. -/
def rhe (a : ℚ) : ℤ :=
  let f := ⌊a⌋
  let r := a - (f : ℚ)
  if r < 1 / 2 then f
  else if 1 / 2 < r then f + 1
  else if f % 2 = 0 then f else f + 1

/-- Python's fixed-point formatting with two digits, `f"{x:.2f}"`, on an
exactly represented value. -/
def formatTwoDec (x : ℚ) : String :=
  let sign := if x < 0 then "-" else ""
  let n := rhe (|x| * 100)
  let whole := n / 100
  let frac := n % 100
  sign ++ toString whole ++ "." ++ (if frac < 10 then "0" else "") ++ toString frac

/-- The formatting function `fm`: `"0"` for exact zero, `"<0.01"` for a
strictly positive value below `0.01`, otherwise two decimal digits. -/
def fm (x : ℚ) : String :=
  if x = 0 then "0"
  else if 0 < x ∧ x < 1 / 100 then "<0.01"
  else formatTwoDec x

/-- Model of `math.sqrt` restricted to rationals with rational square
roots (the only inputs the verified statements evaluate it at; in
particular `sqrtQ 0 = 0`).  Python returns the irrational value as a
float on other inputs, which has no exact rational embedding; those
inputs are never exercised by the claims, and `sqrtQ` returns `0` there. -/
def sqrtQ (x : ℚ) : ℚ :=
  if x ≤ 0 then 0
  else
    let sn := Nat.sqrt x.num.toNat
    let sd := Nat.sqrt x.den
    if sn * sn = x.num.toNat ∧ sd * sd = x.den then (sn : ℚ) / (sd : ℚ) else 0

/-- Python float/int division: raises `ZeroDivisionError` on a zero
denominator. -/
def pyDiv (a b : ℚ) : Except PyErr ℚ :=
  if b = 0 then .error .zeroDivisionError else .ok (a / b)

/-- `sum(1 for v in depth[ref].values() if v > t)`: the number of recorded
positions of one reference whose depth strictly exceeds the threshold
`t`.  (`newThresholds[t]` in the source.) -/
def countOver (dref : Dict ℤ ℤ) (t : ℤ) : ℕ :=
  ((dref.map Prod.snd).filter (fun v => t < v)).length

/-- The threshold cutoffs of `process_bam_file` and `output_statistics`. -/
def thresholds : List ℤ := [1, 10, 50, 100, 300]

/-- One output row of the report, field by field as assembled in the
f-string of `output_statistics` (tab-joined in the file and on standard
output). -/
structure Row where
  accession : String
  meanDepth : String
  avgCoverage : String
  refSize : ℤ
  totalReadsAligned : ℤ
  pctReadsAligned : String
  stdev : String
  abundance : String
  xcov : String
  deriving DecidableEq, Repr

/-- The body of the reporting loop of `output_statistics` for one
reference `ref` of `ilen`: `none` when the `ref in coverage and ref in
ilen` guard or the `ref in depth` guard skips the reference, otherwise
the emitted row; exceptions surface in Python's evaluation order
(`KeyError` on `total_positions[ref]`, `sumsq[ref]`, `count[ref]`,
`ireads[ref]`; `ZeroDivisionError` on the five divisions). -/
def statRow (depth : Dict String (Dict ℤ ℤ)) (total_positions : Dict String ℤ)
    (coverage count sumsq ireads ilen : Dict String ℤ) (total_reads_aligned : ℤ)
    (ref : String) : Except PyErr (Option Row) :=
  if dMem coverage ref && dMem ilen ref then
    match dGet? coverage ref, dGet? ilen ref with
    | some cov, some len =>
      match pyDiv (cov : ℚ) (len : ℚ) with
      | .error e => .error e
      | .ok avg_coverage =>
        if dMem depth ref then
          match dGet? depth ref with
          | none => .error .keyError
          | some dref =>
            let total_depth : ℤ := sumVals dref
            match dGet? total_positions ref with
            | none => .error .keyError
            | some tp =>
              match pyDiv (total_depth : ℚ) (tp : ℚ) with
              | .error e => .error e
              | .ok avgDepth =>
                match thresholds.mapM (fun t => pyDiv (100 * (countOver dref t : ℚ)) (len : ℚ)) with
                | .error e => .error e
                | .ok xCov =>
                  match dGet? sumsq ref with
                  | none => .error .keyError
                  | some sq =>
                    match dGet? count ref with
                    | none => .error .keyError
                    | some cnt =>
                      match pyDiv (sq : ℚ) (cnt : ℚ) with
                      | .error e => .error e
                      | .ok q1 =>
                       match pyDiv (total_depth : ℚ) (cnt : ℚ) with
                       | .error e => .error e
                       | .ok q2 =>
                        let stdev := sqrtQ |q1 - q2 ^ 2|
                        match dGet? ireads ref with
                        | none => .error .keyError
                        | some ir =>
                          match pyDiv (ir : ℚ) (total_reads_aligned : ℚ) with
                          | .error e => .error e
                          | .ok abu_total_aligned =>
                            match pyDiv (100 * (ir : ℚ)) (total_reads_aligned : ℚ) with
                            | .error e => .error e
                            | .ok pct =>
                              .ok (some
                                { accession := ref, meanDepth := fm avgDepth,
                                  avgCoverage := fm avg_coverage, refSize := len,
                                  totalReadsAligned := ir, pctReadsAligned := fm pct,
                                  stdev := fm stdev, abundance := fm abu_total_aligned,
                                  xcov := String.intercalate ":" (xCov.map fm) })
        else .ok none
    | _, _ => .error .keyError
  else .ok none

/-- `output_statistics`: iterate the reporting loop over the references of
`ilen` in insertion order, collecting the emitted rows (each written to
the output file and mirrored to standard output). -/
def output_statistics (depth : Dict String (Dict ℤ ℤ)) (total_positions : Dict String ℤ)
    (coverage count sumsq ireads ilen : Dict String ℤ) (total_reads_aligned : ℤ) :
    Except PyErr (List Row) :=
  (ilen.map Prod.fst).foldlM
    (fun rows ref =>
      match statRow depth total_positions coverage count sumsq ireads ilen
          total_reads_aligned ref with
      | .error e => .error e
      | .ok none => .ok rows
      | .ok (some row) => .ok (rows ++ [row]))
    []

/-- The lines `load_depth_file` actually rejects: fewer than three
columns, or a second or third column that `int()` cannot parse.  (Columns
beyond the third are ignored by the unpacking
`cols[0], int(cols[1]), int(cols[2])`.) -/
def rejectedCols : List String → Bool
  | _ :: s1 :: s2 :: _ => (pyInt? s1).isNone || (pyInt? s2).isNone
  | _ => true

/-- The key a depth line contributes, for stating the duplicate-free
hypothesis: the reference token and the parsed position. -/
def lineKey (cols : List String) : Option String × Option ℤ :=
  (cols.get? 0, (cols.get? 1).bind pyInt?)

/-- Invariant of the read-loop accumulator of `process_bam_file`: the
per-reference read counts sum to the global counter, `coverage` and
`count` are identical, `ireads` and `coverage` share their key set, the
global counter is a count, and it is zero only while no reference has
been touched. -/
def AlignInv (st : BamSt) : Prop :=
  sumVals st.ireads = st.total_reads_aligned ∧
  st.coverage = st.count ∧
  (∀ k, dMem st.ireads k = dMem st.coverage k) ∧
  0 ≤ st.total_reads_aligned ∧
  (st.total_reads_aligned = 0 → st.coverage = [])

/-- Depth-file lines of the end-to-end scenario: reference `chr1`,
positions 1 through 5, each at depth 20. -/
def linesE2E : List (List String) :=
  [["chr1", "1", "20"], ["chr1", "2", "20"], ["chr1", "3", "20"],
   ["chr1", "4", "20"], ["chr1", "5", "20"]]

/-- The depth table the loader builds from `linesE2E`. -/
def depthE2E : Dict String (Dict ℤ ℤ) :=
  [("chr1", [(1, 20), (2, 20), (3, 20), (4, 20), (5, 20)])]

/-- The per-reference position counts the loader builds from `linesE2E`. -/
def tpE2E : Dict String ℤ := [("chr1", 5)]

/-- BAM header of the end-to-end scenario: one reference `chr1`. -/
def headerE2E : List (String × ℤ) := [("chr1", 6)]

/-- The single mapped read of the end-to-end scenario, spanning exactly
the five depth-table positions 1–5 (half-open span `[1, 6)`, in the same
coordinate system the depth file uses). -/
def readsE2E : List BamRead :=
  [{ is_unmapped := false, reference_name := "chr1", reference_start := 1, reference_end := 6 }]

/-- The aggregation state `process_bam_file` produces in the end-to-end
scenario. -/
def stE2E : BamSt :=
  { coverage := [("chr1", 5)], count := [("chr1", 5)], sumsq := [("chr1", 2000)],
    ireads := [("chr1", 1)], countreads := [("chr1", 0)], ilen := [("chr1", 6)],
    total_reads_aligned := 1 }

/-- The single report row of the end-to-end scenario. -/
def rowE2E : Row :=
  { accession := "chr1", meanDepth := "20.00", avgCoverage := "0.83", refSize := 6,
    totalReadsAligned := 1, pctReadsAligned := "100.00", stdev := "0",
    abundance := "1.00", xcov := "83.33:83.33:0:0:0" }

/-- A mapped read on `chrX` for the missing-from-depth-table scenario. -/
def readsNoDepth : List BamRead :=
  [{ is_unmapped := false, reference_name := "chrX", reference_start := 0, reference_end := 5 }]

/-- The aggregation state of the missing-from-depth-table scenario:
`chrX` has five covered bases and one aligned read, and the depth table
is empty. -/
def stNoDepth : BamSt :=
  { coverage := [("chrX", 5)], count := [("chrX", 5)], sumsq := [],
    ireads := [("chrX", 1)], countreads := [("chrX", 0)], ilen := [("chrX", 10)],
    total_reads_aligned := 1 }

/-- A single unmapped read, for the no-aligned-reads scenario. -/
def readsUnmapped : List BamRead :=
  [{ is_unmapped := true, reference_name := "chr1", reference_start := 0, reference_end := 5 }]

/-- The aggregation state of the no-aligned-reads scenario: every
accumulator empty and zero aligned reads. -/
def stNoReads : BamSt :=
  { coverage := [], count := [], sumsq := [], ireads := [], countreads := [],
    ilen := [("chr1", 5)], total_reads_aligned := 0 }

/-- Depth table of the no-position-overlap scenario: `chr1` has a single
recorded position 10, far from the read span. -/
def depthNoHit : Dict String (Dict ℤ ℤ) := [("chr1", [(10, 7)])]

/-- A mapped read on `chr1` spanning `[0, 3)`, touching none of the
recorded depth positions of `depthNoHit`. -/
def readsNoHit : List BamRead :=
  [{ is_unmapped := false, reference_name := "chr1", reference_start := 0, reference_end := 3 }]

/-- The aggregation state of the no-position-overlap scenario: `chr1` was
read but never matched a recorded depth position, so `sumsq` stays
empty. -/
def stNoHit : BamSt :=
  { coverage := [("chr1", 3)], count := [("chr1", 3)], sumsq := [],
    ireads := [("chr1", 1)], countreads := [("chr1", 0)], ilen := [("chr1", 5)],
    total_reads_aligned := 1 }

/-- Invariant of the loader state: `depth` and `total_positions` always
hold exactly the same reference keys. -/
def loadInv (st : DepthSt) : Prop :=
  ∀ k, dMem st.1 k = dMem st.2 k

/-- Whether a fallible computation succeeded (`true`) or raised an
exception that aborts the process (`false`). -/
def exceptOk {ε α : Type} : Except ε α → Bool
  | .ok _ => true
  | .error _ => false

/-- The single report row of the small reporter scenario used to witness
the reporter theorems: depth `[("a", [(0, 3), (1, 3)])]`, two positions at
depth 3, coverage 2 of reference length 4, one read, `sumsq = 18`,
`count = 2`. -/
def rowSmall : Row :=
  { accession := "a", meanDepth := "3.00", avgCoverage := "0.50", refSize := 4,
    totalReadsAligned := 1, pctReadsAligned := "100.00", stdev := "0",
    abundance := "1.00", xcov := "50.00:0:0:0:0" }

/-! ## Dictionary lemmas -/

theorem dGet?_dSet {α β : Type} [DecidableEq α] (d : Dict α β) (k j : α) (v : β) :
    dGet? (dSet d k v) j = if k = j then some v else dGet? d j := by
  induction d with
  | nil => simp [dSet, dGet?]
  | cons p rest ih =>
    obtain ⟨k', v'⟩ := p
    by_cases h : k' = k
    · subst h
      by_cases hj : k' = j <;> simp [dSet, dGet?, hj]
    · by_cases hj : k' = j
      · subst hj
        have hkj : ¬k = k' := fun hh => h hh.symm
        simp [dSet, dGet?, h, hkj]
      · simp [dSet, dGet?, h, hj, ih]

theorem dMem_dSet {α β : Type} [DecidableEq α] (d : Dict α β) (k j : α) (v : β) :
    dMem (dSet d k v) j = (decide (k = j) || dMem d j) := by
  by_cases h : k = j <;> simp [dMem, dGet?_dSet, h]

theorem sumVals_dSet {α : Type} [DecidableEq α] (d : Dict α ℤ) (k : α) (v : ℤ) :
    sumVals (dSet d k v) = sumVals d + v - (dGet? d k).getD 0 := by
  induction d with
  | nil => simp [dSet, sumVals, dGet?]
  | cons p rest ih =>
    obtain ⟨k', v'⟩ := p
    by_cases h : k' = k
    · subst h
      simp [dSet, sumVals, dGet?]
      ring
    · simp only [dSet, if_neg h, sumVals, List.map_cons, List.sum_cons, dGet?]
      have hfold : (List.map Prod.snd (dSet rest k v)).sum = sumVals (dSet rest k v) := rfl
      rw [hfold, ih]
      simp only [sumVals]
      ring

theorem dMem_of_dGet? {α β : Type} [DecidableEq α] {d : Dict α β} {k : α} {v : β}
    (h : dGet? d k = some v) : dMem d k = true := by
  simp [dMem, h]

theorem dGet?_isSome_of_dMem {α β : Type} [DecidableEq α] {d : Dict α β} {k : α}
    (h : dMem d k = true) : ∃ v, dGet? d k = some v := by
  simpa [dMem, Option.isSome_iff_exists] using h

/-! ## Formatting and threshold lemmas -/

lemma filter_gt_length_anti {s t : ℤ} (h : s ≤ t) :
    ∀ l : List ℤ, (l.filter (fun v => t < v)).length ≤ (l.filter (fun v => s < v)).length := by
  intro l
  induction l with
  | nil => simp
  | cons a l ih =>
    by_cases hta : t < a
    · have hsa : s < a := lt_of_le_of_lt h hta
      simp [List.filter, hta, hsa]
      omega
    · by_cases hsa : s < a <;> simp [List.filter, hta, hsa] <;> omega

/-- C6: for a fixed reference of the depth table, the threshold coverage
percentage `100 * countOver / L` computed by `output_statistics` is
monotonically non-increasing as the threshold increases through the
cutoffs 1, 10, 50, 100, 300. -/
theorem C6_threshold_cov_antitone (dref : Dict ℤ ℤ) (L : ℚ) (hL : 0 < L)
    (s t : ℤ) (hs : s ∈ thresholds) (ht : t ∈ thresholds) (hst : s ≤ t) :
    100 * (countOver dref t : ℚ) / L ≤ 100 * (countOver dref s : ℚ) / L := by
  have hc : countOver dref t ≤ countOver dref s := filter_gt_length_anti hst _
  have hq : (countOver dref t : ℚ) ≤ (countOver dref s : ℚ) := by exact_mod_cast hc
  gcongr

/-- Witness for C6 at the depth table `[(0, 5)]`, reference length 2, and
the cutoff pair (1, 10). -/
theorem C6_witness :
    100 * (countOver [((0 : ℤ), (5 : ℤ))] 10 : ℚ) / 2 ≤
      100 * (countOver [((0 : ℤ), (5 : ℤ))] 1 : ℚ) / 2 :=
  C6_threshold_cov_antitone [((0 : ℤ), (5 : ℤ))] 2 (by norm_num) 1 10
    (by simp [thresholds]) (by simp [thresholds]) (by norm_num)

/-- C5: `fm` returns `"0"` at exactly zero, `"<0.01"` on every strictly
positive argument below 0.01, and otherwise the two-decimal rendering; in
particular `fm 0 = "0"`, `fm 0.005 = "<0.01"`, `fm 0.01 = "0.01"`. -/
theorem C5_fm_policy :
    fm 0 = "0" ∧
    (∀ x : ℚ, 0 < x → x < 1 / 100 → fm x = "<0.01") ∧
    (∀ x : ℚ, x ≠ 0 → ¬(0 < x ∧ x < 1 / 100) → fm x = formatTwoDec x) ∧
    fm (1 / 200) = "<0.01" ∧ fm (1 / 100) = "0.01" := by
  refine ⟨by simp [fm], ?_, ?_, by norm_num [fm], ?_⟩
  · intro x hx hlt
    rw [fm, if_neg hx.ne', if_pos ⟨hx, hlt⟩]
  · intro x hx hnot
    rw [fm, if_neg hx, if_neg hnot]
  · norm_num [fm, formatTwoDec, rhe, abs_of_nonneg, Int.fract]
    decide

/-- Witness for C5 at the concrete arguments 1/200 and 3. -/
theorem C5_witness :
    fm (1 / 200) = "<0.01" ∧ fm 3 = formatTwoDec 3 :=
  ⟨C5_fm_policy.2.1 (1 / 200) (by norm_num) (by norm_num),
   C5_fm_policy.2.2.1 3 (by norm_num) (by norm_num)⟩

end SamToConfidence

namespace SamToConfidence

lemma loadLine_ok_inv {st st' : DepthSt} {cols : List String} (hInv : loadInv st)
    (h : loadLine st cols = .ok st') :
    loadInv st' ∧ sumVals st'.2 = sumVals st.2 + 1 := by
  unfold loadLine at h
  match hc0 : cols.get? 0 with
  | none => simp only [hc0] at h; cases h
  | some ref =>
    simp only [hc0] at h
    match hc1 : cols.get? 1 with
    | none => simp only [hc1] at h; cases h
    | some s1 =>
      simp only [hc1] at h
      match hp1 : pyInt? s1 with
      | none => simp only [hp1] at h; cases h
      | some pos =>
        simp only [hp1] at h
        match hc2 : cols.get? 2 with
        | none => simp only [hc2] at h; cases h
        | some s2 =>
          simp only [hc2] at h
          match hp2 : pyInt? s2 with
          | none => simp only [hp2] at h; cases h
          | some dp =>
            simp only [hp2] at h
            by_cases hm : dMem st.1 ref
            · simp only [hm, if_true] at h
              obtain ⟨dref, hdref⟩ := dGet?_isSome_of_dMem hm
              have hm2 : dMem st.2 ref = true := by rw [← hInv]; exact hm
              obtain ⟨n, hn⟩ := dGet?_isSome_of_dMem hm2
              simp only [hdref, hn, Except.ok.injEq] at h
              subst h
              constructor
              · intro k
                simp [dMem_dSet, hInv k]
              · simp [sumVals_dSet, hn]
                omega
            · simp only [hm] at h
              have hd1 : dGet? (dSet st.1 ref ([] : Dict ℤ ℤ)) ref = some [] := by
                simp [dGet?_dSet]
              have hd2 : dGet? (dSet st.2 ref 0) ref = some 0 := by
                simp [dGet?_dSet]
              simp only [Bool.false_eq_true, if_false, hd1, hd2, Except.ok.injEq] at h
              subst h
              have hm2 : dMem st.2 ref = false := by rw [← hInv]; simpa using hm
              constructor
              · intro k
                simp [dMem_dSet, hInv k]
              · have hnone : dGet? st.2 ref = none := by
                  simpa [dMem, Option.isSome_iff_exists] using hm2
                simp [sumVals_dSet, dGet?_dSet, hnone]

end SamToConfidence

namespace SamToConfidence

lemma loadLine_rejected (st : DepthSt) {cols : List String}
    (h : rejectedCols cols = true) : ∃ e, loadLine st cols = .error e := by
  match cols with
  | [] => exact ⟨.indexError, rfl⟩
  | [a] => exact ⟨.indexError, rfl⟩
  | [a, b] =>
    match hp : pyInt? b with
    | none => exact ⟨.valueError, by unfold loadLine; simp [List.get?, hp]⟩
    | some p => exact ⟨.indexError, by unfold loadLine; simp [List.get?, hp]⟩
  | a :: b :: c :: rest =>
    simp only [rejectedCols] at h
    match hp : pyInt? b with
    | none => exact ⟨.valueError, by unfold loadLine; simp [List.get?, hp]⟩
    | some p =>
      match hq : pyInt? c with
      | none => exact ⟨.valueError, by unfold loadLine; simp [List.get?, hp, hq]⟩
      | some q => simp [hp, hq] at h

lemma loadLine_accepted {st : DepthSt} (hInv : loadInv st) {cols : List String}
    (h : rejectedCols cols = false) : ∃ st', loadLine st cols = .ok st' := by
  match cols with
  | [] => simp [rejectedCols] at h
  | [a] => simp [rejectedCols] at h
  | [a, b] => simp [rejectedCols] at h
  | a :: b :: c :: rest =>
    simp only [rejectedCols, Bool.or_eq_false_iff] at h
    match hp : pyInt? b with
    | none => simp [hp] at h
    | some p =>
      match hq : pyInt? c with
      | none => simp [hq] at h
      | some q =>
        by_cases hm : dMem st.1 a
        · obtain ⟨dref, hdref⟩ := dGet?_isSome_of_dMem hm
          have hm2 : dMem st.2 a = true := by rw [← hInv]; exact hm
          obtain ⟨n, hn⟩ := dGet?_isSome_of_dMem hm2
          exact ⟨(dSet st.1 a (dSet dref p q), dSet st.2 a (n + 1)),
            by unfold loadLine; simp [List.get?, hp, hq, hm, hdref, hn]⟩
        · exact ⟨(dSet (dSet st.1 a []) a (dSet [] p q), dSet (dSet st.2 a 0) a 1),
            by unfold loadLine; simp [List.get?, hp, hq, hm, dGet?_dSet]⟩

lemma load_fold_sum {lines : List (List String)} :
    ∀ st st', loadInv st → lines.foldlM loadLine st = .ok st' →
      loadInv st' ∧ sumVals st'.2 = sumVals st.2 + lines.length := by
  induction lines with
  | nil =>
    intro st st' hInv h
    simp only [List.foldlM, pure, Except.pure, Except.ok.injEq] at h
    subst h
    simp [hInv]
  | cons c ls ih =>
    intro st st' hInv h
    simp only [List.foldlM] at h
    cases hline : loadLine st c with
    | error e => simp [hline, Bind.bind, Except.bind] at h
    | ok st1 =>
      simp only [hline, Bind.bind, Except.bind] at h
      obtain ⟨hInv1, hsum1⟩ := loadLine_ok_inv hInv hline
      obtain ⟨hInv2, hsum2⟩ := ih st1 st' hInv1 h
      refine ⟨hInv2, ?_⟩
      simp only [List.length_cons]
      omega

lemma load_fold_error {lines : List (List String)} :
    ∀ st, loadInv st → (∃ c ∈ lines, rejectedCols c = true) →
      ∃ e, lines.foldlM loadLine st = .error e := by
  induction lines with
  | nil => intro st _ h; simp at h
  | cons c ls ih =>
    intro st hInv h
    by_cases hc : rejectedCols c = true
    · obtain ⟨e, he⟩ := loadLine_rejected st hc
      exact ⟨e, by simp [List.foldlM, he, Bind.bind, Except.bind]⟩
    · have hc' : rejectedCols c = false := by simpa using hc
      obtain ⟨st1, h1⟩ := loadLine_accepted hInv hc'
      obtain ⟨hInv1, -⟩ := loadLine_ok_inv hInv h1
      have hbad : ∃ x ∈ ls, rejectedCols x = true := by
        obtain ⟨x, hx, hrx⟩ := h
        rcases List.mem_cons.mp hx with rfl | hx
        · exact absurd hrx hc
        · exact ⟨x, hx, hrx⟩
      obtain ⟨e, he⟩ := ih st1 hInv1 hbad
      exact ⟨e, by simp [List.foldlM, h1, Bind.bind, Except.bind, he]⟩

lemma load_fold_ok {lines : List (List String)} :
    ∀ st, loadInv st → (∀ c ∈ lines, rejectedCols c = false) →
      ∃ st', lines.foldlM loadLine st = .ok st' := by
  induction lines with
  | nil => intro st _ _; exact ⟨st, rfl⟩
  | cons c ls ih =>
    intro st hInv hall
    obtain ⟨st1, h1⟩ := loadLine_accepted hInv (hall c (by simp))
    obtain ⟨hInv1, -⟩ := loadLine_ok_inv hInv h1
    obtain ⟨st', h2⟩ := ih st1 hInv1 (fun x hx => hall x (by simp [hx]))
    exact ⟨st', by simp [List.foldlM, h1, Bind.bind, Except.bind, h2]⟩

/-- C3 amended: `load_depth_file` raises a fatal parse error exactly when
some line has fewer than three columns or a second or third column that
`int()` rejects; lines with three or more columns and integer second and
third columns are accepted, extra columns ignored. -/
theorem C3_parse_error_iff (lines : List (List String)) :
    exceptOk (load_depth_file lines) = lines.all (fun cols => !rejectedCols cols) := by
  have hInv0 : loadInv (([], []) : DepthSt) := fun k => rfl
  unfold load_depth_file
  by_cases hall : ∀ c ∈ lines, rejectedCols c = false
  · obtain ⟨st', hok⟩ := load_fold_ok _ hInv0 hall
    rw [hok]
    simp only [exceptOk]
    symm
    simp only [List.all_eq_true, Bool.not_eq_true']
    exact hall
  · push_neg at hall
    obtain ⟨c, hc, hrc⟩ := hall
    have hrc' : rejectedCols c = true := by simpa using hrc
    obtain ⟨e, he⟩ := load_fold_error _ hInv0 ⟨c, hc, hrc'⟩
    rw [he]
    simp only [exceptOk]
    symm
    simp only [List.all_eq_false]
    exact ⟨c, hc, by simp [hrc']⟩

/-- C3 counterexample: a four-column line has the wrong column count yet
`load_depth_file` accepts it without error. -/
theorem C3_counterexample :
    (["chr1", "1", "2", "extra"].length = 3) = False ∧
    load_depth_file [["chr1", "1", "2", "extra"]]
      = .ok ([("chr1", [(1, 2)])], [("chr1", 1)]) := by
  constructor
  · simp
  · rfl

/-- C8: for a depth file in which no (reference, position) pair repeats,
the per-reference position counts produced by `load_depth_file` sum to
the number of lines of the file. -/
theorem C8_positions_sum (lines : List (List String)) (d : Dict String (Dict ℤ ℤ))
    (tp : Dict String ℤ) (hnodup : (lines.map lineKey).Nodup)
    (h : load_depth_file lines = .ok (d, tp)) :
    sumVals tp = lines.length := by
  have hmain := @load_fold_sum lines ([], []) (d, tp) (fun k => rfl) h
  simpa [sumVals] using hmain.2

/-- Witness for C8 on the end-to-end depth file. -/
theorem C8_witness : sumVals tpE2E = (linesE2E).length :=
  C8_positions_sum linesE2E depthE2E tpE2E (by decide) (by rfl)

end SamToConfidence

namespace SamToConfidence

lemma processPos_fixed (depth : Dict String (Dict ℤ ℤ)) (ref : String) (st : BamSt) (pos : ℤ) :
    (processPos depth ref st pos).ireads = st.ireads ∧
    (processPos depth ref st pos).countreads = st.countreads ∧
    (processPos depth ref st pos).total_reads_aligned = st.total_reads_aligned ∧
    (processPos depth ref st pos).ilen = st.ilen := by
  unfold processPos
  dsimp only
  split
  · exact ⟨rfl, rfl, rfl, rfl⟩
  · split
    · exact ⟨rfl, rfl, rfl, rfl⟩
    · exact ⟨rfl, rfl, rfl, rfl⟩

lemma processPos_cc (depth : Dict String (Dict ℤ ℤ)) (ref : String) (st : BamSt) (pos : ℤ)
    (h : st.coverage = st.count) :
    (processPos depth ref st pos).coverage = (processPos depth ref st pos).count := by
  unfold processPos
  dsimp only
  rw [h]
  split
  · rfl
  · split
    · rfl
    · rfl

lemma processPos_cov_mem (depth : Dict String (Dict ℤ ℤ)) (ref : String) (st : BamSt) (pos : ℤ)
    (k : String) :
    dMem (processPos depth ref st pos).coverage k = (decide (ref = k) || dMem st.coverage k) := by
  unfold processPos
  dsimp only
  have hbase : dMem (dSet st.coverage ref ((dGet? st.coverage ref).getD 0 + 1)) k
      = (decide (ref = k) || dMem st.coverage k) := dMem_dSet _ _ _ _
  split
  · exact hbase
  · split
    · exact hbase
    · exact hbase

lemma processPos_sumsq_other (depth : Dict String (Dict ℤ ℤ)) (ref : String) (st : BamSt)
    (pos : ℤ) (j : String) (hj : ¬ref = j) :
    dGet? (processPos depth ref st pos).sumsq j = dGet? st.sumsq j := by
  unfold processPos
  dsimp only
  split
  · rfl
  · split
    · rfl
    · simp [dGet?_dSet, hj]

lemma processPos_sumsq_nohit (depth : Dict String (Dict ℤ ℤ)) (ref : String) (st : BamSt)
    (pos : ℤ) (dref : Dict ℤ ℤ) (hd : dGet? depth ref = some dref)
    (hpos : dGet? dref pos = none) :
    (processPos depth ref st pos).sumsq = st.sumsq := by
  unfold processPos
  dsimp only
  simp only [hd, hpos]

lemma foldPos_fixed (depth : Dict String (Dict ℤ ℤ)) (ref : String) :
    ∀ (l : List ℤ) (st : BamSt),
      ((l.foldl (processPos depth ref) st).ireads = st.ireads ∧
       (l.foldl (processPos depth ref) st).countreads = st.countreads ∧
       (l.foldl (processPos depth ref) st).total_reads_aligned = st.total_reads_aligned ∧
       (l.foldl (processPos depth ref) st).ilen = st.ilen) := by
  intro l
  induction l with
  | nil => intro st; exact ⟨rfl, rfl, rfl, rfl⟩
  | cons p l ih =>
    intro st
    have h1 := processPos_fixed depth ref st p
    have h2 := ih (processPos depth ref st p)
    simp only [List.foldl_cons]
    exact ⟨h2.1.trans h1.1, h2.2.1.trans h1.2.1, h2.2.2.1.trans h1.2.2.1, h2.2.2.2.trans h1.2.2.2⟩

lemma foldPos_cc (depth : Dict String (Dict ℤ ℤ)) (ref : String) :
    ∀ (l : List ℤ) (st : BamSt), st.coverage = st.count →
      (l.foldl (processPos depth ref) st).coverage = (l.foldl (processPos depth ref) st).count := by
  intro l
  induction l with
  | nil => intro st h; exact h
  | cons p l ih =>
    intro st h
    simp only [List.foldl_cons]
    exact ih _ (processPos_cc depth ref st p h)

lemma foldPos_cov_mem (depth : Dict String (Dict ℤ ℤ)) (ref : String) :
    ∀ (l : List ℤ) (st : BamSt), dMem st.coverage ref = true →
      ∀ k, dMem (l.foldl (processPos depth ref) st).coverage k = dMem st.coverage k := by
  intro l
  induction l with
  | nil => intro st h k; rfl
  | cons p l ih =>
    intro st h k
    simp only [List.foldl_cons]
    have hstep : ∀ j, dMem (processPos depth ref st p).coverage j
        = (decide (ref = j) || dMem st.coverage j) := processPos_cov_mem depth ref st p
    have hm : dMem (processPos depth ref st p).coverage ref = true := by
      rw [hstep ref]
      simp
    rw [ih _ hm k, hstep k]
    by_cases hk : ref = k
    · subst hk
      simp [h]
    · simp [hk]

lemma foldPos_sumsq_other (depth : Dict String (Dict ℤ ℤ)) (ref : String) (j : String)
    (hj : ¬ref = j) :
    ∀ (l : List ℤ) (st : BamSt),
      dGet? (l.foldl (processPos depth ref) st).sumsq j = dGet? st.sumsq j := by
  intro l
  induction l with
  | nil => intro st; rfl
  | cons p l ih =>
    intro st
    simp only [List.foldl_cons]
    rw [ih _, processPos_sumsq_other depth ref st p j hj]

lemma foldPos_sumsq_nohit (depth : Dict String (Dict ℤ ℤ)) (ref : String) (dref : Dict ℤ ℤ)
    (hd : dGet? depth ref = some dref) :
    ∀ (l : List ℤ) (st : BamSt), (∀ pos ∈ l, dGet? dref pos = none) →
      (l.foldl (processPos depth ref) st).sumsq = st.sumsq := by
  intro l
  induction l with
  | nil => intro st _; rfl
  | cons p l ih =>
    intro st hall
    simp only [List.foldl_cons]
    rw [ih _ (fun q hq => hall q (by simp [hq])),
      processPos_sumsq_nohit depth ref st p dref hd (hall p (by simp))]

end SamToConfidence

namespace SamToConfidence

lemma processRead_inv {depth : Dict String (Dict ℤ ℤ)} {st st' : BamSt} {r : BamRead}
    (h : processRead depth st r = .ok st') (hInv : AlignInv st) : AlignInv st' := by
  obtain ⟨hsum, hcc, hmemeq, hpos, hzero⟩ := hInv
  unfold processRead at h
  by_cases hu : r.is_unmapped
  · rw [if_pos hu] at h
    injection h with h
    subst h
    exact ⟨hsum, hcc, hmemeq, hpos, hzero⟩
  · rw [if_neg hu] at h
    by_cases hm : dMem st.coverage r.reference_name
    · simp only [hm, if_true] at h
      have hmi : dMem st.ireads r.reference_name = true := by
        rw [hmemeq]; exact hm
      obtain ⟨n, hn⟩ := dGet?_isSome_of_dMem hmi
      simp only [hn] at h
      injection h with h
      subst h
      set ref := r.reference_name with href
      set st2 : BamSt :=
        { st with ireads := dSet st.ireads ref (n + 1),
                  total_reads_aligned := st.total_reads_aligned + 1 } with hst2
      set l := posRange r.reference_start r.reference_end with hl
      have hfix := foldPos_fixed depth ref l st2
      have hmem2 : dMem st2.coverage ref = true := hm
      refine ⟨?_, ?_, ?_, ?_, ?_⟩
      · rw [hfix.1, hfix.2.2.1]
        show sumVals (dSet st.ireads ref (n + 1)) = st.total_reads_aligned + 1
        rw [sumVals_dSet, hn]
        simp only [Option.getD_some]
        omega
      · exact foldPos_cc depth ref l st2 hcc
      · intro k
        rw [hfix.1, foldPos_cov_mem depth ref l st2 hmem2 k]
        show dMem (dSet st.ireads ref (n + 1)) k = dMem st.coverage k
        rw [dMem_dSet]
        by_cases hk : ref = k
        · subst hk
          simp [hm]
        · simp [hk, hmemeq k]
      · rw [hfix.2.2.1]
        show 0 ≤ st.total_reads_aligned + 1
        omega
      · rw [hfix.2.2.1]
        intro habs
        have habs2 : st.total_reads_aligned + 1 = 0 := habs
        exfalso
        omega
    · simp only [hm, Bool.false_eq_true, if_false] at h
      have hget : dGet? (dSet st.ireads r.reference_name 0) r.reference_name = some 0 := by
        simp [dGet?_dSet]
      simp only [hget] at h
      injection h with h
      subst h
      set ref := r.reference_name with href
      have hinone : dGet? st.ireads ref = none := by
        have : dMem st.ireads ref = false := by rw [hmemeq]; simpa using hm
        simpa [dMem, Option.isSome_iff_exists] using this
      set st2 : BamSt :=
        { st with coverage := dSet st.coverage ref 0, count := dSet st.count ref 0,
                  ireads := dSet (dSet st.ireads ref 0) ref (0 + 1),
                  countreads := dSet st.countreads ref 0,
                  total_reads_aligned := st.total_reads_aligned + 1 } with hst2
      set l := posRange r.reference_start r.reference_end with hl
      have hfix := foldPos_fixed depth ref l st2
      have hmem2 : dMem st2.coverage ref = true := by
        show dMem (dSet st.coverage ref 0) ref = true
        simp [dMem_dSet]
      refine ⟨?_, ?_, ?_, ?_, ?_⟩
      · rw [hfix.1, hfix.2.2.1]
        show sumVals (dSet (dSet st.ireads ref 0) ref (0 + 1))
            = st.total_reads_aligned + 1
        rw [sumVals_dSet, sumVals_dSet, hinone, dGet?_dSet]
        simp [hsum]
      · refine foldPos_cc depth ref l st2 ?_
        show dSet st.coverage ref 0 = dSet st.count ref 0
        rw [hcc]
      · intro k
        rw [hfix.1, foldPos_cov_mem depth ref l st2 hmem2 k]
        show dMem (dSet (dSet st.ireads ref 0) ref (0 + 1)) k
            = dMem (dSet st.coverage ref 0) k
        rw [dMem_dSet, dMem_dSet, dMem_dSet]
        by_cases hk : ref = k <;> simp [hk, hmemeq k]
      · rw [hfix.2.2.1]
        show 0 ≤ st.total_reads_aligned + 1
        omega
      · rw [hfix.2.2.1]
        intro habs
        have habs2 : st.total_reads_aligned + 1 = 0 := habs
        exfalso
        omega

end SamToConfidence

namespace SamToConfidence

lemma processRead_cases {depth : Dict String (Dict ℤ ℤ)} {st st' : BamSt} {r : BamRead}
    (h : processRead depth st r = .ok st') :
    (r.is_unmapped = true ∧ st' = st) ∨
    (r.is_unmapped = false ∧ ∃ st2 : BamSt,
      st' = (posRange r.reference_start r.reference_end).foldl
          (processPos depth r.reference_name) st2 ∧
      st2.sumsq = st.sumsq ∧
      dMem st2.coverage r.reference_name = true ∧
      (∀ k, dMem st.coverage k = true → dMem st2.coverage k = true)) := by
  unfold processRead at h
  by_cases hu : r.is_unmapped
  · rw [if_pos hu] at h
    injection h with h
    exact .inl ⟨hu, h.symm⟩
  · rw [if_neg hu] at h
    refine .inr ⟨by simpa using hu, ?_⟩
    by_cases hm : dMem st.coverage r.reference_name
    · simp only [hm, if_true] at h
      cases hn : dGet? st.ireads r.reference_name with
      | none =>
        rw [hn] at h
        exact (Except.noConfusion h)
      | some n =>
        simp only [hn] at h
        injection h with h
        refine ⟨_, h.symm, rfl, hm, fun k hk => hk⟩
    · simp only [hm, Bool.false_eq_true, if_false] at h
      have hget : dGet? (dSet st.ireads r.reference_name 0) r.reference_name = some 0 := by
        simp [dGet?_dSet]
      simp only [hget] at h
      injection h with h
      refine ⟨_, h.symm, rfl, ?_, ?_⟩
      · show dMem (dSet st.coverage r.reference_name 0) r.reference_name = true
        simp [dMem_dSet]
      · intro k hk
        show dMem (dSet st.coverage r.reference_name 0) k = true
        rw [dMem_dSet]
        simp [hk]

lemma processRead_sumsq {depth : Dict String (Dict ℤ ℤ)} {st st' : BamSt} {r : BamRead}
    {j : String} {dref : Dict ℤ ℤ}
    (h : processRead depth st r = .ok st')
    (hd : dGet? depth j = some dref)
    (hno : r.is_unmapped = false → r.reference_name = j →
      ∀ pos ∈ posRange r.reference_start r.reference_end, dGet? dref pos = none) :
    dGet? st'.sumsq j = dGet? st.sumsq j := by
  rcases processRead_cases h with ⟨hu, rfl⟩ | ⟨hu, st2, rfl, hsq, hmem, hmono⟩
  · rfl
  · by_cases hj : r.reference_name = j
    · have hfold := foldPos_sumsq_nohit depth r.reference_name dref (hj ▸ hd)
        (posRange r.reference_start r.reference_end) st2 (hno hu hj)
      rw [hfold, hsq]
    · rw [foldPos_sumsq_other depth r.reference_name j hj _ st2, hsq]

lemma processRead_cov_mono {depth : Dict String (Dict ℤ ℤ)} {st st' : BamSt} {r : BamRead}
    {k : String} (h : processRead depth st r = .ok st')
    (hk : dMem st.coverage k = true) : dMem st'.coverage k = true := by
  rcases processRead_cases h with ⟨hu, rfl⟩ | ⟨hu, st2, rfl, hsq, hmem, hmono⟩
  · exact hk
  · have h2 := hmono k hk
    have hcov := foldPos_cov_mem depth r.reference_name
      (posRange r.reference_start r.reference_end) st2 hmem k
    rw [hcov]
    exact h2

lemma processRead_cov_self {depth : Dict String (Dict ℤ ℤ)} {st st' : BamSt} {r : BamRead}
    (h : processRead depth st r = .ok st') (hm : r.is_unmapped = false) :
    dMem st'.coverage r.reference_name = true := by
  rcases processRead_cases h with ⟨hu, rfl⟩ | ⟨hu, st2, rfl, hsq, hmem, hmono⟩
  · rw [hm] at hu; cases hu
  · have hcov := foldPos_cov_mem depth r.reference_name
      (posRange r.reference_start r.reference_end) st2 hmem r.reference_name
    rw [hcov]
    exact hmem

lemma foldReads_inv {depth : Dict String (Dict ℤ ℤ)} {reads : List BamRead} :
    ∀ st st', AlignInv st → reads.foldlM (processRead depth) st = .ok st' → AlignInv st' := by
  induction reads with
  | nil =>
    intro st st' hInv h
    simp only [List.foldlM, pure, Except.pure, Except.ok.injEq] at h
    subst h
    exact hInv
  | cons r rs ih =>
    intro st st' hInv h
    simp only [List.foldlM] at h
    cases hr : processRead depth st r with
    | error e => simp [hr, Bind.bind, Except.bind] at h
    | ok st1 =>
      simp only [hr, Bind.bind, Except.bind] at h
      exact ih st1 st' (processRead_inv hr hInv) h

lemma foldReads_sumsq {depth : Dict String (Dict ℤ ℤ)} {reads : List BamRead}
    {j : String} {dref : Dict ℤ ℤ} (hd : dGet? depth j = some dref)
    (hno : ∀ r ∈ reads, r.is_unmapped = false → r.reference_name = j →
      ∀ pos ∈ posRange r.reference_start r.reference_end, dGet? dref pos = none) :
    ∀ st st', reads.foldlM (processRead depth) st = .ok st' →
      dGet? st'.sumsq j = dGet? st.sumsq j := by
  induction reads with
  | nil =>
    intro st st' h
    simp only [List.foldlM, pure, Except.pure, Except.ok.injEq] at h
    subst h
    rfl
  | cons r rs ih =>
    intro st st' h
    simp only [List.foldlM] at h
    cases hr : processRead depth st r with
    | error e => simp [hr, Bind.bind, Except.bind] at h
    | ok st1 =>
      simp only [hr, Bind.bind, Except.bind] at h
      have h1 := processRead_sumsq hr hd (hno r (by simp))
      have h2 := ih (fun x hx => hno x (by simp [hx])) st1 st' h
      rw [h2, h1]

lemma foldReads_cov_mono {depth : Dict String (Dict ℤ ℤ)} {reads : List BamRead} {k : String} :
    ∀ st st', reads.foldlM (processRead depth) st = .ok st' →
      dMem st.coverage k = true → dMem st'.coverage k = true := by
  induction reads with
  | nil =>
    intro st st' h hk
    simp only [List.foldlM, pure, Except.pure, Except.ok.injEq] at h
    subst h
    exact hk
  | cons r rs ih =>
    intro st st' h hk
    simp only [List.foldlM] at h
    cases hr : processRead depth st r with
    | error e => simp [hr, Bind.bind, Except.bind] at h
    | ok st1 =>
      simp only [hr, Bind.bind, Except.bind] at h
      exact ih st1 st' h (processRead_cov_mono hr hk)

lemma foldReads_cov {depth : Dict String (Dict ℤ ℤ)} {reads : List BamRead} {ref : String} :
    ∀ st st', reads.foldlM (processRead depth) st = .ok st' →
      (∃ r ∈ reads, r.is_unmapped = false ∧ r.reference_name = ref) →
      dMem st'.coverage ref = true := by
  induction reads with
  | nil =>
    intro st st' h hex
    simp at hex
  | cons r rs ih =>
    intro st st' h hex
    simp only [List.foldlM] at h
    cases hr : processRead depth st r with
    | error e => simp [hr, Bind.bind, Except.bind] at h
    | ok st1 =>
      simp only [hr, Bind.bind, Except.bind] at h
      obtain ⟨x, hx, hxu, hxr⟩ := hex
      rcases List.mem_cons.mp hx with rfl | hx
      · have hm1 : dMem st1.coverage ref = true := by
          rw [← hxr]
          exact processRead_cov_self hr hxu
        exact foldReads_cov_mono st1 st' h hm1
      · exact ih st1 st' h ⟨x, hx, hxu, hxr⟩

end SamToConfidence

namespace SamToConfidence

lemma process_bam_file_inv {tp : Dict String ℤ} {depthT : Dict String (Dict ℤ ℤ)}
    {header : List (String × ℤ)} {reads : List BamRead} {st : BamSt}
    (h : process_bam_file depthT tp header reads = .ok st) :
    AlignInv st ∧ st.ilen = buildIlen header ∧
    ∃ st0, reads.foldlM (processRead depthT) initBamSt = .ok st0 ∧
      st.coverage = st0.coverage ∧ st.sumsq = st0.sumsq := by
  unfold process_bam_file at h
  cases hf : reads.foldlM (processRead depthT) initBamSt with
  | error e => rw [hf] at h; exact (Except.noConfusion h)
  | ok st0 =>
    rw [hf] at h
    injection h with h
    subst h
    have hinv0 : AlignInv initBamSt := by
      refine ⟨rfl, rfl, fun k => rfl, le_refl 0, fun _ => rfl⟩
    have hinv := foldReads_inv initBamSt st0 hinv0 hf
    exact ⟨hinv, rfl, st0, rfl, rfl, rfl⟩

/-- C7: after the aggregation pass, the per-reference read counts sum to
the global `total_reads_aligned` counter. -/
theorem C7_reads_sum (depthT : Dict String (Dict ℤ ℤ)) (tp : Dict String ℤ)
    (header : List (String × ℤ)) (reads : List BamRead) (st : BamSt)
    (h : process_bam_file depthT tp header reads = .ok st) :
    sumVals st.ireads = st.total_reads_aligned :=
  ((process_bam_file_inv h).1).1

/-- Witness for C7 on the end-to-end scenario run. -/
theorem C7_witness : sumVals stE2E.ireads = stE2E.total_reads_aligned :=
  C7_reads_sum depthE2E tpE2E headerE2E readsE2E stE2E rfl

/-- C9: after the aggregation pass, `coverage` and `count` are the same
mapping, hence agree on every reference key. -/
theorem C9_coverage_eq_count (depthT : Dict String (Dict ℤ ℤ)) (tp : Dict String ℤ)
    (header : List (String × ℤ)) (reads : List BamRead) (st : BamSt)
    (h : process_bam_file depthT tp header reads = .ok st) :
    st.coverage = st.count ∧ ∀ ref, dGet? st.coverage ref = dGet? st.count ref := by
  have hcc := ((process_bam_file_inv h).1).2.1
  exact ⟨hcc, fun ref => by rw [hcc]⟩

/-- Witness for C9 on the end-to-end scenario run. -/
theorem C9_witness :
    stE2E.coverage = stE2E.count ∧
    dGet? stE2E.coverage "chr1" = dGet? stE2E.count "chr1" := by
  have h := C9_coverage_eq_count depthE2E tpE2E headerE2E readsE2E stE2E rfl
  exact ⟨h.1, h.2 "chr1"⟩

lemma output_stats_cov_nil (depthT : Dict String (Dict ℤ ℤ)) (tp : Dict String ℤ)
    (count sumsq ireads ilen : Dict String ℤ) (total : ℤ) :
    output_statistics depthT tp [] count sumsq ireads ilen total = .ok [] := by
  unfold output_statistics
  have haux : ∀ (keys : List String) (acc : List Row),
      keys.foldlM
        (fun rows ref =>
          match statRow depthT tp [] count sumsq ireads ilen total ref with
          | Except.error e => Except.error e
          | Except.ok none => Except.ok rows
          | Except.ok (some row) => Except.ok (rows ++ [row])) acc = Except.ok acc := by
    intro keys
    induction keys with
    | nil => intro acc; rfl
    | cons k ks ih =>
      intro acc
      have hrow : statRow depthT tp [] count sumsq ireads ilen total k = .ok none := by
        unfold statRow
        rfl
      simp only [List.foldlM, hrow, Bind.bind, Except.bind]
      exact ih acc
  exact haux _ []

/-- C4 amended: when the aggregation pass reports zero aligned reads, the
guarded loop body is never entered, so `output_statistics` returns
normally with an empty report instead of raising a division error. -/
theorem C4_no_raise_on_zero_reads (depthT : Dict String (Dict ℤ ℤ)) (tp : Dict String ℤ)
    (header : List (String × ℤ)) (reads : List BamRead) (st : BamSt)
    (h : process_bam_file depthT tp header reads = .ok st)
    (h0 : st.total_reads_aligned = 0) :
    output_statistics depthT tp st.coverage st.count st.sumsq st.ireads st.ilen
      st.total_reads_aligned = .ok [] := by
  have hcov : st.coverage = [] := ((process_bam_file_inv h).1).2.2.2.2 h0
  rw [hcov]
  exact output_stats_cov_nil depthT tp st.count st.sumsq st.ireads st.ilen st.total_reads_aligned

/-- C4 counterexample: a BAM with no mapped reads; the reporter returns
normally with an empty report, raising nothing. -/
theorem C4_counterexample :
    process_bam_file [("chr1", [(1, 20)])] [("chr1", 1)] [("chr1", 5)] readsUnmapped
      = .ok stNoReads ∧
    stNoReads.total_reads_aligned = 0 ∧
    output_statistics [("chr1", [(1, 20)])] [("chr1", 1)] stNoReads.coverage stNoReads.count
      stNoReads.sumsq stNoReads.ireads stNoReads.ilen stNoReads.total_reads_aligned
      = .ok [] :=
  ⟨rfl, rfl, rfl⟩

/-- Witness for the amended C4 on the no-mapped-reads run. -/
theorem C4_witness :
    output_statistics [("chr1", [(1, 20)])] [("chr1", 1)] stNoReads.coverage stNoReads.count
      stNoReads.sumsq stNoReads.ireads stNoReads.ilen stNoReads.total_reads_aligned
      = .ok [] :=
  C4_no_raise_on_zero_reads [("chr1", [(1, 20)])] [("chr1", 1)] [("chr1", 5)] readsUnmapped
    stNoReads rfl rfl

end SamToConfidence

namespace SamToConfidence

lemma statRow_some_mem_depth {depthT : Dict String (Dict ℤ ℤ)} {tp : Dict String ℤ}
    {coverage count sumsq ireads ilen : Dict String ℤ} {total : ℤ} {ref : String} {row : Row}
    (h : statRow depthT tp coverage count sumsq ireads ilen total ref = .ok (some row)) :
    dMem depthT row.accession = true := by
  unfold statRow at h
  by_cases hg : dMem coverage ref && dMem ilen ref
  · rw [if_pos hg] at h
    cases hcov : dGet? coverage ref with
    | none => rw [hcov] at h; exact (Except.noConfusion h)
    | some cov =>
      cases hlen : dGet? ilen ref with
      | none => rw [hcov, hlen] at h; exact (Except.noConfusion h)
      | some len =>
        simp only [hcov, hlen] at h
        cases hdiv : pyDiv (cov : ℚ) (len : ℚ) with
        | error e => rw [hdiv] at h; exact (Except.noConfusion h)
        | ok avgc =>
          simp only [hdiv] at h
          by_cases hd : dMem depthT ref
          · rw [if_pos hd] at h
            cases hdref : dGet? depthT ref with
            | none => rw [hdref] at h; exact (Except.noConfusion h)
            | some dref =>
              simp only [hdref] at h
              cases htp : dGet? tp ref with
              | none => rw [htp] at h; exact (Except.noConfusion h)
              | some tpn =>
                simp only [htp] at h
                cases hdiv2 : pyDiv ((sumVals dref : ℤ) : ℚ) ((tpn : ℤ) : ℚ) with
                | error e => rw [hdiv2] at h; exact (Except.noConfusion h)
                | ok avgD =>
                  simp only [hdiv2] at h
                  cases hmap : thresholds.mapM
                      (fun t => pyDiv (100 * (countOver dref t : ℚ)) ((len : ℤ) : ℚ)) with
                  | error e => rw [hmap] at h; exact (Except.noConfusion h)
                  | ok xcv =>
                    simp only [hmap] at h
                    cases hsq : dGet? sumsq ref with
                    | none => rw [hsq] at h; exact (Except.noConfusion h)
                    | some sq =>
                      simp only [hsq] at h
                      cases hcnt : dGet? count ref with
                      | none => rw [hcnt] at h; exact (Except.noConfusion h)
                      | some cnt =>
                        simp only [hcnt] at h
                        cases hq1 : pyDiv ((sq : ℤ) : ℚ) ((cnt : ℤ) : ℚ) with
                        | error e => rw [hq1] at h; exact (Except.noConfusion h)
                        | ok q1 =>
                          simp only [hq1] at h
                          cases hq2 : pyDiv ((sumVals dref : ℤ) : ℚ) ((cnt : ℤ) : ℚ) with
                          | error e =>
                            rw [hq2] at h
                            exact (Except.noConfusion h)
                          | ok q2 =>
                            simp only [hq2] at h
                            cases hir : dGet? ireads ref with
                            | none => rw [hir] at h; exact (Except.noConfusion h)
                            | some ir =>
                              simp only [hir] at h
                              cases ha : pyDiv ((ir : ℤ) : ℚ) ((total : ℤ) : ℚ) with
                              | error e => rw [ha] at h; exact (Except.noConfusion h)
                              | ok abu =>
                                simp only [ha] at h
                                cases hp : pyDiv (100 * ((ir : ℤ) : ℚ)) ((total : ℤ) : ℚ) with
                                | error e => rw [hp] at h; exact (Except.noConfusion h)
                                | ok pct =>
                                  simp only [hp, Except.ok.injEq, Option.some.injEq] at h
                                  subst h
                                  exact hd
          · rw [if_neg hd] at h
            simp only [Except.ok.injEq] at h
            exact (Option.noConfusion h)
  · rw [if_neg hg] at h
    simp only [Except.ok.injEq] at h
    exact (Option.noConfusion h)

end SamToConfidence

namespace SamToConfidence

lemma statRow_keyError_sumsq {depthT : Dict String (Dict ℤ ℤ)}
    {tp coverage count sumsq ireads ilen : Dict String ℤ} {total : ℤ} {ref : String}
    {cov L n : ℤ} {dref : Dict ℤ ℤ}
    (hcov : dGet? coverage ref = some cov) (hlen : dGet? ilen ref = some L) (hL : L ≠ 0)
    (hdep : dGet? depthT ref = some dref) (htp : dGet? tp ref = some n) (hn : n ≠ 0)
    (hsq : dGet? sumsq ref = none) :
    statRow depthT tp coverage count sumsq ireads ilen total ref = .error .keyError := by
  have hLq : ((L : ℚ)) ≠ 0 := Int.cast_ne_zero.mpr hL
  have hnq : ((n : ℚ)) ≠ 0 := Int.cast_ne_zero.mpr hn
  have hmemc : dMem coverage ref = true := dMem_of_dGet? hcov
  have hmeml : dMem ilen ref = true := dMem_of_dGet? hlen
  have hmemd : dMem depthT ref = true := dMem_of_dGet? hdep
  unfold statRow
  rw [hmemc, hmeml]
  simp only [Bool.and_self, if_true, hcov, hlen]
  rw [pyDiv, if_neg hLq]
  simp only [hmemd, if_true, hdep, htp]
  rw [pyDiv, if_neg hnq]
  simp only [thresholds, List.mapM, List.mapM.loop, pyDiv, hLq, if_false, hsq,
    Bind.bind, Except.bind, pure, Except.pure]

end SamToConfidence

namespace SamToConfidence

lemma output_rows_mem_depth {depthT : Dict String (Dict ℤ ℤ)}
    {tp coverage count sumsq ireads ilen : Dict String ℤ} {total : ℤ} {rows : List Row}
    (h : output_statistics depthT tp coverage count sumsq ireads ilen total = .ok rows) :
    ∀ row ∈ rows, dMem depthT row.accession = true := by
  unfold output_statistics at h
  suffices haux : ∀ (keys : List String) (acc rows : List Row),
      (∀ row ∈ acc, dMem depthT row.accession = true) →
      keys.foldlM
        (fun rows ref =>
          match statRow depthT tp coverage count sumsq ireads ilen total ref with
          | Except.error e => Except.error e
          | Except.ok none => Except.ok rows
          | Except.ok (some row) => Except.ok (rows ++ [row])) acc = Except.ok rows →
      ∀ row ∈ rows, dMem depthT row.accession = true by
    exact haux _ [] rows (by simp) h
  intro keys
  induction keys with
  | nil =>
    intro acc rows hacc hh
    simp only [List.foldlM, pure, Except.pure, Except.ok.injEq] at hh
    subst hh
    exact hacc
  | cons k ks ih =>
    intro acc rows hacc hh
    simp only [List.foldlM] at hh
    cases hs : statRow depthT tp coverage count sumsq ireads ilen total k with
    | error e => simp [hs, Bind.bind, Except.bind] at hh
    | ok o =>
      simp only [hs, Bind.bind, Except.bind] at hh
      cases o with
      | none => exact ih acc rows hacc hh
      | some row0 =>
        refine ih (acc ++ [row0]) rows ?_ hh
        intro row hrow
        rcases List.mem_append.mp hrow with hmem | hmem
        · exact hacc row hmem
        · have : row = row0 := by simpa using hmem
          subst this
          exact statRow_some_mem_depth hs

/-- C1 amended: a reference absent from the depth table produces no output
row at all: every emitted row's accession is present in the depth table. -/
theorem C1_no_row_without_depth (depthT : Dict String (Dict ℤ ℤ))
    (tp coverage count sumsq ireads ilen : Dict String ℤ) (total : ℤ)
    (rows : List Row) (row : Row)
    (h : output_statistics depthT tp coverage count sumsq ireads ilen total = .ok rows)
    (hrow : row ∈ rows) : dMem depthT row.accession = true :=
  output_rows_mem_depth h row hrow

/-- C1 counterexample: `chrX` is in the header with observed coverage 5
and is absent from the (empty) depth table, yet the report is empty — no
row is emitted for it. -/
theorem C1_counterexample :
    process_bam_file [] [] [("chrX", 10)] readsNoDepth = .ok stNoDepth ∧
    dGet? stNoDepth.coverage "chrX" = some 5 ∧
    dMem ([] : Dict String (Dict ℤ ℤ)) "chrX" = false ∧
    dMem stNoDepth.ilen "chrX" = true ∧
    output_statistics [] [] stNoDepth.coverage stNoDepth.count stNoDepth.sumsq
      stNoDepth.ireads stNoDepth.ilen stNoDepth.total_reads_aligned = .ok [] := by
  refine ⟨rfl, rfl, rfl, rfl, ?_⟩
  norm_num [output_statistics, statRow, stNoDepth, dMem, dGet?, dSet, pyDiv,
    List.foldlM, Bind.bind, Except.bind, pure, Except.pure]

set_option maxRecDepth 4000 in
/-- Witness for the amended C1 on a small one-reference report. -/
theorem C1_witness : dMem [("a", ([(0, 3), (1, 3)] : Dict ℤ ℤ))] rowSmall.accession = true :=
  C1_no_row_without_depth [("a", [(0, 3), (1, 3)])] [("a", 2)] [("a", 2)] [("a", 2)]
    [("a", 18)] [("a", 1)] [("a", 4)] 1 [rowSmall] rowSmall
    (by norm_num [output_statistics, statRow, rowSmall, dMem, dGet?, dSet, sumVals, pyDiv,
          thresholds, countOver, sqrtQ, fm, formatTwoDec, rhe, List.foldlM, List.mapM,
          List.mapM.loop, List.filter, abs_of_nonneg, Int.fract, Bind.bind, Except.bind,
          pure, Except.pure]
        decide)
    (by simp)

end SamToConfidence

namespace SamToConfidence

/-- C10: a reference with mapped reads, present in the depth table, none
of whose covered positions is a recorded depth position, never receives a
`sumsq` entry, so the reporter's `sumsq[ref]` lookup raises `KeyError`. -/
theorem C10_sumsq_keyerror (depthT : Dict String (Dict ℤ ℤ)) (tp : Dict String ℤ)
    (header : List (String × ℤ)) (reads : List BamRead) (st : BamSt) (ref : String)
    (dref : Dict ℤ ℤ) (L n : ℤ)
    (hproc : process_bam_file depthT tp header reads = .ok st)
    (hread : ∃ r ∈ reads, r.is_unmapped = false ∧ r.reference_name = ref)
    (hdep : dGet? depthT ref = some dref)
    (hnohit : ∀ r ∈ reads, r.is_unmapped = false → r.reference_name = ref →
      ∀ pos ∈ posRange r.reference_start r.reference_end, dGet? dref pos = none)
    (hlen : dGet? st.ilen ref = some L) (hL : L ≠ 0)
    (htp : dGet? tp ref = some n) (hn : n ≠ 0) :
    dMem st.sumsq ref = false ∧
    statRow depthT tp st.coverage st.count st.sumsq st.ireads st.ilen
      st.total_reads_aligned ref = .error .keyError := by
  obtain ⟨hinv, hilen, st0, hfold, hcov, hsq⟩ := process_bam_file_inv hproc
  have hsq0 : dGet? st0.sumsq ref = none := by
    rw [foldReads_sumsq hdep hnohit initBamSt st0 hfold]
    rfl
  have hsqst : dGet? st.sumsq ref = none := by rw [hsq]; exact hsq0
  have hmemc : dMem st.coverage ref = true := by
    rw [hcov]
    exact foldReads_cov initBamSt st0 hfold hread
  obtain ⟨cov, hcovget⟩ := dGet?_isSome_of_dMem hmemc
  constructor
  · simp [dMem, hsqst]
  · exact statRow_keyError_sumsq hcovget hlen hL hdep htp hn hsqst

/-- Witness for C10 on the no-position-overlap run. -/
theorem C10_witness :
    dMem stNoHit.sumsq "chr1" = false ∧
    statRow depthNoHit [("chr1", 1)] stNoHit.coverage stNoHit.count stNoHit.sumsq
      stNoHit.ireads stNoHit.ilen stNoHit.total_reads_aligned "chr1" = .error .keyError :=
  C10_sumsq_keyerror depthNoHit [("chr1", 1)] [("chr1", 5)] readsNoHit stNoHit "chr1"
    [(10, 7)] 5 1 rfl
    ⟨{ is_unmapped := false, reference_name := "chr1", reference_start := 0,
       reference_end := 3 }, by simp [readsNoHit], rfl, rfl⟩
    rfl (by decide) rfl (by decide) rfl (by decide)

/-- C2: the end-to-end scenario: depth file with `chr1` positions 1-5 at
depth 20, one mapped read spanning exactly those positions; the emitted
`chr1` row shows Mean Depth 20.00, Total Reads Aligned 1, % Reads Aligned
100.00, and zero standard deviation. -/
theorem C2_end_to_end :
    load_depth_file linesE2E = .ok (depthE2E, tpE2E) ∧
    process_bam_file depthE2E tpE2E headerE2E readsE2E = .ok stE2E ∧
    output_statistics depthE2E tpE2E stE2E.coverage stE2E.count stE2E.sumsq stE2E.ireads
      stE2E.ilen stE2E.total_reads_aligned = .ok [rowE2E] ∧
    rowE2E.accession = "chr1" ∧ rowE2E.meanDepth = "20.00" ∧
    rowE2E.totalReadsAligned = 1 ∧ rowE2E.pctReadsAligned = "100.00" ∧
    (rowE2E.stdev = "0" ∨ rowE2E.stdev = "0.00") := by
  refine ⟨rfl, rfl, ?_, rfl, rfl, rfl, rfl, Or.inl rfl⟩
  norm_num [output_statistics, statRow, depthE2E, tpE2E, stE2E, rowE2E, dMem, dGet?, dSet,
    sumVals, pyDiv, thresholds, countOver, sqrtQ, fm, formatTwoDec, rhe, List.foldlM,
    List.mapM, List.mapM.loop, List.filter, abs_of_nonneg, Int.fract, Bind.bind,
    Except.bind, pure, Except.pure]
  decide

end SamToConfidence
